import Mathlib

/- A shallow embedding of the duplicate-search and ingest-verification
scripts of this repository (`parquet_cli/duplicate_search/search.py`,
`parquet_cli/duplicate_search/delete.py`,
`parquet_cli/ingest_verifier/check.py`).

Strings that the scripts manipulate character by character are modelled
as `List Char`; floating-point coordinates that are only ever compared
for equality (grouping keys) are modelled as `Int`; remote I/O (index
scans, HTTP requests, random draws) is modelled by explicit oracle
parameters supplied to the embedded functions. -/

/- ------------------------------------------------------------------ -/
/- Job-identifier extraction (search.py lines 94-99, delete.py 57-65) -/
/- ------------------------------------------------------------------ -/

/- The pattern `job_id=`, split as its first six characters plus the
final `=`, so that statements can speak about the text strictly before
the `=` of an occurrence. -/
def jobIdPre : List Char := ['j', 'o', 'b', '_', 'i', 'd']

def jobIdPat : List Char := jobIdPre ++ ['=']

/- `findSub pat l` returns the suffix of `l` after the first occurrence
of `pat`, or `none` when `pat` does not occur: this is Python's
`l.partition(pat)[2]`, which evaluates to `''` in the `none` case. -/
def findSub (pat : List Char) : List Char → Option (List Char)
  | [] => none
  | c :: cs =>
    if pat.isPrefixOf (c :: cs) then some ((c :: cs).drop pat.length)
    else findSub pat cs

def occursIn (pat l : List Char) : Bool := (findSub pat l).isSome

/- `search.py::s3_url_to_uuid`:
`url.partition('job_id=')[2].split('/')[0]`; the head of the split is
the text up to the first `/` (the whole remainder when there is none). -/
def s3_url_to_uuid (url : List Char) : List Char :=
  ((findSub jobIdPat url).getD []).takeWhile (fun c => c != '/')

/- `delete.py::s3_url_to_uuid`: the same expression, then the empty
result is replaced by the sentinel `NA`. -/
def s3_url_to_uuid_delete (url : List Char) : List Char :=
  let id_string := s3_url_to_uuid url
  if id_string = [] then ['N', 'A'] else id_string

/- ------------------------------------------------------------------ -/
/- File records and the duplicate classifier (search.py lines 132-204) -/
/- ------------------------------------------------------------------ -/

structure FileDoc where
  s3_url : String
  job_end_time : Int
deriving DecidableEq

/- Python's `sorted(entries, key=lambda x: x[1], reverse=True)` is a
stable descending sort on the timestamp; `List.insertionSort` with
`laterFirst` is extensionally that stable sort (equal keys keep their
original relative order). -/
def laterFirst (a b : String × Int) : Prop := b.2 ≤ a.2

instance : DecidableRel laterFirst := fun a b => inferInstanceAs (Decidable (b.2 ≤ a.2))

instance : IsTotal (String × Int) laterFirst := ⟨fun a b => le_total b.2 a.2⟩

instance : IsTrans (String × Int) laterFirst := ⟨fun _ _ _ h1 h2 => le_trans h2 h1⟩

def sortDescByTime (l : List (String × Int)) : List (String × Int) :=
  l.insertionSort laterFirst

/- `list(sorted(duplicates, key=lambda x: x[1], reverse=True))[1:]`
followed by the projection `[d[0] for d in duplicate_jobs]`. -/
def entryDropLatest (l : List (String × Int)) : List String :=
  ((sortDescByTime l).drop 1).map Prod.fst

/- Appending a value under a key of an insertion-ordered association
map (`src_id_map[src_url].append(...)`, a fresh singleton list when the
key is new). -/
def updAssoc {κ ν : Type} [DecidableEq κ] (m : List (κ × List ν)) (k : κ) (v : ν) :
    List (κ × List ν) :=
  match m with
  | [] => [(k, [v])]
  | (k0, vs) :: rest => if k0 = k then (k0, vs ++ [v]) :: rest else (k0, vs) :: updAssoc rest k v

/- The single pass over `ingest_records` (search.py lines 189-200): an
id with no file records is appended to `unconfirmed_duplicates`; every
file record of the others is inverted into `src_id_map`. -/
def classifyStep (acc : List String × List (String × List (String × Int)))
    (r : String × List FileDoc) : List String × List (String × List (String × Int)) :=
  if r.2.length = 0 then (acc.1 ++ [r.1], acc.2)
  else (acc.1, r.2.foldl (fun m doc => updAssoc m doc.s3_url (r.1, doc.job_end_time)) acc.2)

def classifyRecords (records : List (String × List FileDoc)) :
    List String × List (String × List (String × Int)) :=
  records.foldl classifyStep ([], [])

def unconfirmed_duplicates (records : List (String × List FileDoc)) : List String :=
  (classifyRecords records).1

def src_id_map (records : List (String × List FileDoc)) :
    List (String × List (String × Int)) :=
  (classifyRecords records).2

/- The classifier loop (search.py lines 202-204): for every map entry
with more than one (job, timestamp) pair, extend the confirmed list
with all job ids but the first of the stable descending sort. -/
def confirmedOfMap (m : List (String × List (String × Int))) : List String :=
  (m.filter (fun e => decide (1 < e.2.length))).flatMap (fun e => entryDropLatest e.2)

def confirmed_duplicates (records : List (String × List FileDoc)) : List String :=
  confirmedOfMap (src_id_map records)

/- Every (job, timestamp) pair stored in an association map entry has a
job id satisfying `S`. -/
def pairsSat (S : String → Prop) (m : List (String × List (String × Int))) : Prop :=
  ∀ e ∈ m, ∀ p ∈ e.2, S p.1

/- A job id that appears inside `src_id_map` comes from a record of the
input whose file-record list is nonempty. -/
def hasNonemptyRecord (records : List (String × List FileDoc)) (x : String) : Prop :=
  ∃ r ∈ records, r.1 = x ∧ r.2 ≠ []

/- ------------------------------------------------------------------ -/
/- Bounded retrying fetcher (search.py 138-165, check.py 91-118)      -/
/- ------------------------------------------------------------------ -/

/- One attempt of the lazy scroll scan: either it completes with the
full document list, or it raises after having appended some documents
to `records` (the scan is a generator, so an exception can strike after
any number of appends). -/
inductive ScanAttempt where
  | ok (docs : List FileDoc)
  | err (docsSoFar : List FileDoc)
deriving DecidableEq

def scanDocs : ScanAttempt → List FileDoc
  | .ok ds => ds
  | .err ds => ds

def scanOk : ScanAttempt → Bool
  | .ok _ => true
  | .err _ => false

/- The retry loop shared by `get_es_docs_for_id` (search.py) and
`get_es_docs_for_url` (check.py): `retries` counts down from 3, the
sleep delay starts at 1.5 and doubles after every failed attempt (the
code sleeps even after the final one), and `records` is reset at the
start of each attempt, holding the partial scan output when the
attempt raises.  The outcome of each attempt is supplied by the oracle
`outcomes`.  Returns the final `records`, the slept delays, and the
number of attempts made. -/
def fetchGo (outcomes : Nat → ScanAttempt) :
    Nat → Nat → ℚ → List FileDoc → List ℚ → List FileDoc × List ℚ × Nat
  | attempt, 0, _, records, slept => (records, slept, attempt)
  | attempt, retries + 1, delay, _, slept =>
    match outcomes attempt with
    | .ok ds => (ds, slept, attempt + 1)
    | .err ds => fetchGo outcomes (attempt + 1) retries (delay * 2) ds (slept ++ [delay])

def fetchResult (outcomes : Nat → ScanAttempt) : List FileDoc × List ℚ × Nat :=
  fetchGo outcomes 0 3 (3 / 2) [] []

def get_es_docs_for_id (id : String) (outcomes : Nat → ScanAttempt) :
    String × List FileDoc :=
  (id, (fetchResult outcomes).1)

/- ------------------------------------------------------------------ -/
/- External confirmation fallback (search.py lines 209-290)           -/
/- ------------------------------------------------------------------ -/

/- One `_source` document of the stats index: the source location plus
the fields the fallback reads to build its query (search.py 221-236). -/
structure StatsDoc where
  s3_url : String
  provider : String
  project : String
  platform_code : String
  min_lon : Int
  min_lat : Int
  max_lon : Int
  max_lat : Int
  min_depth : Int
  max_depth : Int
  min_datetime : Int
  max_datetime : Int
deriving DecidableEq

/- The query parameters of the first page request (search.py 226-236). -/
structure QueryParams where
  provider : String
  project : String
  platform : String
  bbox : Int × Int × Int × Int
  minDepth : Int
  maxDepth : Int
  startTime : Int
  endTime : Int
deriving DecidableEq

def paramsOf (s : StatsDoc) : QueryParams :=
  ⟨s.provider, s.project, s.platform_code, (s.min_lon, s.min_lat, s.max_lon, s.max_lat),
    s.min_depth, s.max_depth, s.min_datetime, s.max_datetime⟩

/- One returned in-situ point; the float coordinates are only ever used
as a grouping key, so equality-compared `Int` stands in for them. -/
structure InsituPoint where
  time : Int
  latitude : Int
  longitude : Int
  depth : Int
  job_id : String
deriving DecidableEq

def pointKey (p : InsituPoint) : Int × Int × Int × Int :=
  (p.time, p.latitude, p.longitude, p.depth)

/- `insitu_dict` (search.py 262-269): group the collected points by
(time, latitude, longitude, depth), keeping each point's job id. -/
def insitu_dict (pts : List InsituPoint) :
    List ((Int × Int × Int × Int) × List String) :=
  pts.foldl (fun m p => updAssoc m (pointKey p) p.job_id) []

/- The confirmation test (search.py line 271):
`any([len(insitu_dict[k]) > 1 for k in insitu_dict])`. -/
def hasDuplicatePoints (pts : List InsituPoint) : Bool :=
  (insitu_dict pts).any (fun e => decide (1 < e.2.length))

inductive FallbackOutcome where
  | confirmed
  | missingEvidence
  | suspected
deriving DecidableEq

/- The body of the per-uuid fallback loop (search.py 215-277): a uuid
without a retained stats record raises `KeyError` at line 219 — before
any query parameters exist — and the bare `except` turns that into
`suspected`; otherwise one query is built and issued (the oracle
`responder` stands for the paginated collection of all result pages)
and the confirmation test decides between confirmed and
missingEvidence.  The second component records the issued queries. -/
def checkUuid (stats : String → Option StatsDoc)
    (responder : QueryParams → List InsituPoint) (uuid : String) :
    FallbackOutcome × List QueryParams :=
  match stats uuid with
  | none => (.suspected, [])
  | some s =>
    let ps := paramsOf s
    if hasDuplicatePoints (responder ps) then (.confirmed, [ps])
    else (.missingEvidence, [ps])

/- Lookup in an insertion-ordered association map (first matching key;
keys are unique by construction). -/
def assocGet {κ ν : Type} [DecidableEq κ] (m : List (κ × List ν)) (k : κ) : List ν :=
  match m with
  | [] => []
  | (k0, vs) :: rest => if k0 = k then vs else assocGet rest k

/- Concrete sample data used to evaluate the fallback. -/
def sampleStats : StatsDoc := ⟨"s3://b/job_id=u/f.parquet", "pv", "pj", "pc", 0, 1, 2, 3, 0, 5, 10, 20⟩

def samplePoint : InsituPoint := ⟨0, 0, 0, 0, "J"⟩

def samplePoint2 : InsituPoint := ⟨0, 0, 0, 0, "K"⟩

/- ------------------------------------------------------------------ -/
/- Run output (search.py lines 209-290)                               -/
/- ------------------------------------------------------------------ -/

/- The JSON document written to `search_result.json` (lines 282-290). -/
structure OutputDoc where
  confirmed_duplicates : List String
  suspected_duplicates : List String
  missing_ingest_records : List String
deriving DecidableEq

/- One iteration of the fallback loop, threading
(confirmed, suspected, missing): externally confirmed uuids are
appended to the same confirmed list the classifier built. -/
def fallbackStep (stats : String → Option StatsDoc)
    (responder : QueryParams → List InsituPoint)
    (acc : List String × List String × List String) (u : String) :
    List String × List String × List String :=
  match (checkUuid stats responder u).1 with
  | .confirmed => (acc.1 ++ [u], acc.2.1, acc.2.2)
  | .suspected => (acc.1, acc.2.1 ++ [u], acc.2.2)
  | .missingEvidence => (acc.1, acc.2.1, acc.2.2 ++ [u])

def runFallback (stats : String → Option StatsDoc)
    (responder : QueryParams → List InsituPoint)
    (unconfirmed confirmed : List String) : OutputDoc :=
  let z := unconfirmed.foldl (fallbackStep stats responder) (confirmed, [], [])
  ⟨z.1, z.2.1, z.2.2⟩

/- The tail of the run (search.py 209-290): when both classifier lists
are empty only a log line is produced and nothing is written; otherwise
the fallback loop runs and exactly one output document is written. -/
def runReport (stats : String → Option StatsDoc)
    (responder : QueryParams → List InsituPoint)
    (unconfirmed confirmed : List String) : Option OutputDoc :=
  if unconfirmed.length = 0 ∧ confirmed.length = 0 then none
  else some (runFallback stats responder unconfirmed confirmed)

/- ------------------------------------------------------------------ -/
/- Fallback page-request retry loop (search.py lines 243-254)         -/
/- ------------------------------------------------------------------ -/

/- The state of the inner retry loop around one page request: the code
sets `delay = 1; retries = 2`, issues the request, and while
`retries > 0 and response.status_code != 200` it sleeps, doubles the
delay and re-issues the request — WITHOUT ever decrementing `retries`.
`attempt` counts the requests issued so far; `statuses` is the oracle
giving the status code of each request. -/
structure PageRetryState where
  retries : Nat
  delay : Nat
  attempt : Nat
  status : Nat
deriving DecidableEq

def pageRetryInit (statuses : Nat → Nat) : PageRetryState :=
  ⟨2, 1, 1, statuses 0⟩

def pageRetryCond (s : PageRetryState) : Bool :=
  decide (0 < s.retries) && decide (s.status ≠ 200)

def pageRetryStep (statuses : Nat → Nat) (s : PageRetryState) : PageRetryState :=
  ⟨s.retries, s.delay * 2, s.attempt + 1, statuses s.attempt⟩

/- ------------------------------------------------------------------ -/
/- Source enumeration (search.py lines 85-130)                        -/
/- ------------------------------------------------------------------ -/

def s3_url_to_uuid_str (url : String) : String :=
  ⟨s3_url_to_uuid url.data⟩

/- Python's `s3_url.startswith(prefix)` as a character-level prefix
test. -/
def startsWithStr (s pre : String) : Bool := pre.data.isPrefixOf s.data

/- The Python set `ingest_uuids`, as an insertion-ordered
duplicate-free list. -/
def setInsert (l : List String) (x : String) : List String :=
  if x ∈ l then l else l ++ [x]

/- Python dict assignment `uuid_to_stats[uuid] = doc`: replace the
value when the key exists, append the binding otherwise. -/
def mapRetain (m : List (String × StatsDoc)) (k : String) (v : StatsDoc) :
    List (String × StatsDoc) :=
  match m with
  | [] => [(k, v)]
  | (k0, v0) :: rest => if k0 = k then (k0, v) :: rest else (k0, v0) :: mapRetain rest k v

def lookupStats (m : List (String × StatsDoc)) (k : String) : Option StatsDoc :=
  match m with
  | [] => none
  | (k0, v0) :: rest => if k0 = k then some v0 else lookupStats rest k

structure EnumState where
  docs : Nat
  added : Nat
  skipped : Nat
  ingest_uuids : List String
  uuid_to_stats : List (String × StatsDoc)

/- One iteration of the stats-index scan (search.py 109-123).  The
boolean paired with each document models that document's
`random.random() < 0.25` draw (line 122); a record not starting with
the configured prefix is skipped, otherwise its uuid is added to the
set and the record is retained when the uuid is new to `uuid_to_stats`
(the `uuid not in uuid_to_stats` disjunct) or the draw succeeded. -/
def enumStep (pref : String) (st : EnumState) (dc : StatsDoc × Bool) : EnumState :=
  if startsWithStr dc.1.s3_url pref then
    if (lookupStats st.uuid_to_stats (s3_url_to_uuid_str dc.1.s3_url)).isNone || dc.2 then
      ⟨st.docs + 1, st.added + 1, st.skipped,
        setInsert st.ingest_uuids (s3_url_to_uuid_str dc.1.s3_url),
        mapRetain st.uuid_to_stats (s3_url_to_uuid_str dc.1.s3_url) dc.1⟩
    else
      ⟨st.docs + 1, st.added + 1, st.skipped,
        setInsert st.ingest_uuids (s3_url_to_uuid_str dc.1.s3_url), st.uuid_to_stats⟩
  else ⟨st.docs + 1, st.added, st.skipped + 1, st.ingest_uuids, st.uuid_to_stats⟩

def enumerateStats (pref : String) (docs : List (StatsDoc × Bool)) : EnumState :=
  docs.foldl (enumStep pref) ⟨0, 0, 0, [], []⟩

/- Every uuid in the set has a retained stats record. -/
def enumInv (st : EnumState) : Prop :=
  ∀ u ∈ st.ingest_uuids, (lookupStats st.uuid_to_stats u).isSome = true

/- A concrete stats document under the prefix `s3://b/`. -/
def sampleEnumDoc : StatsDoc :=
  ⟨"s3://b/job_id=U/f.parquet", "pv", "pj", "pc", 0, 1, 2, 3, 0, 5, 10, 20⟩

theorem isPrefixOf_self_append (l t : List Char) : l.isPrefixOf (l ++ t) = true := by
  induction l with
  | nil => cases t <;> rfl
  | cons c cs ih => simp [List.isPrefixOf, ih]

theorem findSub_self_append (pat t : List Char) (h : pat ≠ []) :
    findSub pat (pat ++ t) = some t := by
  obtain ⟨c, cs, rfl⟩ : ∃ c cs, pat = c :: cs := by
    cases pat with
    | nil => exact absurd rfl h
    | cons c cs => exact ⟨c, cs, rfl⟩
  have hp : (c :: cs).isPrefixOf ((c :: cs) ++ t) = true := isPrefixOf_self_append _ _
  rw [List.cons_append] at hp
  rw [List.cons_append, findSub, if_pos hp, ← List.cons_append, List.drop_left]

theorem takeWhile_no_slash (X rest : List Char) (hX : ∀ c ∈ X, c ≠ '/') :
    (X ++ '/' :: rest).takeWhile (fun c => c != '/') = X := by
  induction X with
  | nil => simp [List.takeWhile]
  | cons c cs ih =>
    have hc : c ≠ '/' := hX c (List.mem_cons_self _ _)
    have hcb : (c != '/') = true := by simpa using hc
    rw [List.cons_append, List.takeWhile_cons, if_pos hcb,
      ih (fun d hd => hX d (List.mem_cons_of_mem _ hd))]

theorem occursIn_cons (pat : List Char) (c : Char) (l : List Char)
    (h : occursIn pat l = true) : occursIn pat (c :: l) = true := by
  unfold occursIn at h ⊢
  rw [findSub]
  by_cases hp : pat.isPrefixOf (c :: l) = true
  · rw [if_pos hp]; rfl
  · rw [if_neg hp]; exact h

theorem occursIn_of_isPrefixOf (pat l : List Char) (hl : l ≠ [])
    (h : pat.isPrefixOf l = true) : occursIn pat l = true := by
  obtain ⟨c, cs, rfl⟩ := List.exists_cons_of_ne_nil hl
  simp [occursIn, findSub, h]

theorem isPrefixOf_append_left (p B C : List Char) (hlen : p.length ≤ B.length)
    (h : p.isPrefixOf (B ++ C) = true) : p.isPrefixOf B = true := by
  induction p generalizing B with
  | nil => cases B <;> rfl
  | cons a as ih =>
    cases B with
    | nil => simp at hlen
    | cons b bs =>
      simp only [List.cons_append, List.isPrefixOf, Bool.and_eq_true, beq_iff_eq] at h ⊢
      exact ⟨h.1, ih bs (by simpa using Nat.succ_le_succ_iff.mp hlen) h.2⟩

theorem findSub_first_occurrence (pre tail : List Char)
    (h : occursIn jobIdPat (pre ++ jobIdPre) = false) :
    findSub jobIdPat (pre ++ (jobIdPat ++ tail)) = some tail := by
  induction pre with
  | nil => simpa using findSub_self_append jobIdPat tail (by simp [jobIdPat, jobIdPre])
  | cons c pre ih =>
    cases hb : jobIdPat.isPrefixOf ((c :: pre) ++ (jobIdPat ++ tail)) with
    | true =>
      exfalso
      have hsplit : (c :: pre) ++ (jobIdPat ++ tail)
          = ((c :: pre) ++ jobIdPre) ++ ('=' :: tail) := by
        simp [jobIdPat, List.append_assoc]
      rw [hsplit] at hb
      have hlen : jobIdPat.length ≤ ((c :: pre) ++ jobIdPre).length := by
        simp [jobIdPat, jobIdPre]
      have hpB := isPrefixOf_append_left jobIdPat ((c :: pre) ++ jobIdPre) ('=' :: tail) hlen hb
      have hocc := occursIn_of_isPrefixOf jobIdPat ((c :: pre) ++ jobIdPre) (by simp) hpB
      rw [h] at hocc
      exact Bool.false_ne_true hocc
    | false =>
      have hstep : findSub jobIdPat ((c :: pre) ++ (jobIdPat ++ tail))
          = findSub jobIdPat (pre ++ (jobIdPat ++ tail)) := by
        rw [List.cons_append, findSub, if_neg]
        rw [← List.cons_append]
        exact fun hcon => Bool.false_ne_true (hb ▸ hcon)
      rw [hstep]
      apply ih
      cases hocc : occursIn jobIdPat (pre ++ jobIdPre) with
      | false => rfl
      | true =>
        exfalso
        have := occursIn_cons jobIdPat c (pre ++ jobIdPre) hocc
        rw [← List.cons_append] at this
        rw [h] at this
        exact Bool.false_ne_true this

/-- C3 (corrected): for every string whose first `job_id=` occurrence is
followed by a nonempty slash-free segment `X` terminated by `/`, both
extraction functions return exactly `X`; for every string in which
`job_id=` does not occur, the search engine's function returns the
empty string while the deletion collaborator's function returns the
sentinel `NA`; both functions are total (never raise). -/
theorem c3_amended :
    (∀ pre X rest : List Char,
        occursIn jobIdPat (pre ++ jobIdPre) = false →
        (∀ c ∈ X, c ≠ '/') → X ≠ [] →
        s3_url_to_uuid (pre ++ (jobIdPat ++ (X ++ '/' :: rest))) = X ∧
        s3_url_to_uuid_delete (pre ++ (jobIdPat ++ (X ++ '/' :: rest))) = X) ∧
    (∀ url : List Char, occursIn jobIdPat url = false →
        s3_url_to_uuid url = [] ∧ s3_url_to_uuid_delete url = ['N', 'A']) := by
  constructor
  · intro pre X rest hpre hX hXne
    have hf : findSub jobIdPat (pre ++ (jobIdPat ++ (X ++ '/' :: rest)))
        = some (X ++ '/' :: rest) := findSub_first_occurrence pre (X ++ '/' :: rest) hpre
    have hs : s3_url_to_uuid (pre ++ (jobIdPat ++ (X ++ '/' :: rest))) = X := by
      rw [s3_url_to_uuid, hf]
      exact takeWhile_no_slash X rest hX
    refine ⟨hs, ?_⟩
    rw [s3_url_to_uuid_delete]
    simp only [hs]
    rw [if_neg hXne]
  · intro url hurl
    have hf : findSub jobIdPat url = none := by
      cases hfind : findSub jobIdPat url with
      | none => rfl
      | some t =>
        exfalso
        rw [occursIn, hfind] at hurl
        simp at hurl
    have hs : s3_url_to_uuid url = [] := by
      rw [s3_url_to_uuid, hf]
      rfl
    refine ⟨hs, ?_⟩
    rw [s3_url_to_uuid_delete]
    simp [hs]

/-- C3 counterexample: the claim states that the search engine's
extraction function returns the sentinel `NA` on a string without a
`job_id=` segment; on the concrete input `foo` it returns the empty
string, which is not `NA`. -/
theorem c3_counterexample :
    s3_url_to_uuid ['f', 'o', 'o'] = [] ∧ ([] : List Char) ≠ ['N', 'A'] := by
  decide

/-- C3 witness: the amended theorem evaluated at the concrete inputs
`xjob_id=AB/y` (both functions return `AB`) and `foo` (the deletion
function returns `NA`). -/
theorem c3_witness :
    s3_url_to_uuid (['x'] ++ (jobIdPat ++ (['A', 'B'] ++ '/' :: ['y']))) = ['A', 'B'] ∧
    s3_url_to_uuid_delete ['f', 'o', 'o'] = ['N', 'A'] :=
  ⟨(c3_amended.1 ['x'] ['A', 'B'] ['y'] (by decide) (by decide) (by decide)).1,
   (c3_amended.2 ['f', 'o', 'o'] (by decide)).2⟩

theorem entryDropLatest_length (l : List (String × Int)) :
    (entryDropLatest l).length = l.length - 1 := by
  rw [entryDropLatest, List.length_map, List.length_drop, sortDescByTime,
    (List.perm_insertionSort laterFirst l).length_eq]

/-- C2 (corrected): for a SourceFileIndex entry with N ≥ 2 pairs the
classifier adds exactly N−1 job ids (with multiplicity) — all but the
head of the stable timestamp-descending sort, which holds the maximum
timestamp of the entry and belongs to the entry; every added id comes
from a pair of the entry.  (When several pairs share the maximum
timestamp the ids of the non-head maximal pairs ARE added.) -/
theorem c2_amended (l : List (String × Int)) (h : 2 ≤ l.length) :
    (entryDropLatest l).length = l.length - 1 ∧
    ∃ p rest, sortDescByTime l = p :: rest ∧ p ∈ l ∧ (∀ q ∈ l, q.2 ≤ p.2) ∧
      entryDropLatest l = rest.map Prod.fst ∧ ∀ x ∈ rest, x ∈ l := by
  have hperm : List.Perm (sortDescByTime l) l := List.perm_insertionSort laterFirst l
  have hlen : (sortDescByTime l).length = l.length := hperm.length_eq
  obtain ⟨p, rest, hsort⟩ : ∃ p rest, sortDescByTime l = p :: rest := by
    cases hs : sortDescByTime l with
    | nil => rw [hs] at hlen; simp at hlen; omega
    | cons p rest => exact ⟨p, rest, rfl⟩
  have hsorted : List.Sorted laterFirst (sortDescByTime l) :=
    List.sorted_insertionSort laterFirst l
  rw [hsort] at hsorted
  have hrest : ∀ b ∈ rest, laterFirst p b := (List.sorted_cons.mp hsorted).1
  refine ⟨entryDropLatest_length l, p, rest, hsort, ?_, ?_, ?_, ?_⟩
  · exact hperm.mem_iff.mp (hsort ▸ List.mem_cons_self p rest)
  · intro q hq
    have hq' : q ∈ p :: rest := hsort ▸ hperm.mem_iff.mpr hq
    rcases List.mem_cons.mp hq' with hqp | hqr
    · exact le_of_eq (congrArg Prod.snd hqp)
    · exact hrest q hqr
  · rw [entryDropLatest, hsort]; rfl
  · intro x hx
    exact hperm.mem_iff.mp (hsort ▸ List.mem_cons_of_mem p hx)

/-- C2 counterexample: on the entry [("A", 5), ("B", 5)], where both
pairs hold the maximum timestamp 5, the classifier adds "B" — a job id
of the entry holding the maximum timestamp — refuting the claim that a
job id holding the maximum timestamp is never among the N−1 added. -/
theorem c2_counterexample :
    entryDropLatest [("A", 5), ("B", 5)] = ["B"] ∧
    ("B", (5 : Int)) ∈ [("A", (5 : Int)), ("B", 5)] ∧
    ([("A", (5 : Int)), ("B", 5)]).map Prod.snd = [5, 5] ∧
    "B" ∈ entryDropLatest [("A", 5), ("B", 5)] := by
  decide

/-- C2 witness: the amended theorem evaluated on a concrete three-pair
entry: exactly two job ids are added. -/
theorem c2_witness :
    (entryDropLatest [("A", 5), ("B", 3), ("C", 1)]).length
      = ([("A", (5 : Int)), ("B", 3), ("C", 1)] : List (String × Int)).length - 1 :=
  (c2_amended [("A", 5), ("B", 3), ("C", 1)] (by decide)).1

/-- C5 (corrected): the confirmed result of the classifier is a plain
list, not a deduplicated set: it contains one occurrence of a job id
per shared-source-file entry in which the id is a non-head pair, so its
length is the sum over the entries with more than one pair of
(entry length − 1); the same job id can therefore occur repeatedly. -/
theorem c5_amended (m : List (String × List (String × Int))) :
    (confirmedOfMap m).length
      = ((m.filter (fun e => decide (1 < e.2.length))).map (fun e => e.2.length - 1)).sum := by
  rw [confirmedOfMap, List.length_flatMap]
  congr 1
  apply List.map_congr_left
  intro e _
  exact entryDropLatest_length e.2

/-- C5 counterexample: jobs "A" and "B" share the two source files "f1"
and "f2" with "A" always later; the produced confirmed list is
["B", "B"], which contains the job id "B" twice, refuting the claim
that the confirmed result contains no job id more than once. -/
theorem c5_counterexample :
    confirmed_duplicates
        [("A", [⟨"f1", 2⟩, ⟨"f2", 2⟩]), ("B", [⟨"f1", 1⟩, ⟨"f2", 1⟩])] = ["B", "B"] ∧
    ¬ List.Nodup (confirmed_duplicates
        [("A", [⟨"f1", 2⟩, ⟨"f2", 2⟩]), ("B", [⟨"f1", 1⟩, ⟨"f2", 1⟩])]) := by
  decide

/- ------------------------------------------------------------------ -/
/- Classifier invariants (search.py lines 189-204)                    -/
/- ------------------------------------------------------------------ -/

theorem classify_fst (records : List (String × List FileDoc))
    (init : List String × List (String × List (String × Int))) :
    (records.foldl classifyStep init).1
      = init.1 ++ (records.filter (fun r => decide (r.2.length = 0))).map Prod.fst := by
  induction records generalizing init with
  | nil => simp
  | cons r rs ih =>
    rw [List.foldl_cons, ih]
    by_cases h : r.2.length = 0
    · have h' : r.2 = [] := List.length_eq_zero.mp h
      simp [classifyStep, h, h', List.filter_cons, List.append_assoc]
    · have h' : ¬r.2 = [] := fun hnil => h (by rw [hnil]; rfl)
      simp [classifyStep, h, h', List.filter_cons]

theorem pairsSat_updAssoc (S : String → Prop) (m : List (String × List (String × Int)))
    (k : String) (v : String × Int) (hm : pairsSat S m) (hv : S v.1) :
    pairsSat S (updAssoc m k v) := by
  induction m with
  | nil =>
    intro e he p hp
    simp [updAssoc] at he
    subst he
    simp at hp
    subst hp
    exact hv
  | cons e0 rest ih =>
    obtain ⟨k0, vs⟩ := e0
    intro e he p hp
    by_cases h : k0 = k
    · simp only [updAssoc, if_pos h] at he
      rcases List.mem_cons.mp he with he1 | he2
      · subst he1
        rcases List.mem_append.mp hp with hp1 | hp2
        · exact hm (k0, vs) (List.mem_cons_self _ _) p hp1
        · rw [List.mem_singleton.mp hp2]
          exact hv
      · exact hm e (List.mem_cons_of_mem _ he2) p hp
    · simp only [updAssoc, if_neg h] at he
      rcases List.mem_cons.mp he with he1 | he2
      · subst he1
        exact hm (k0, vs) (List.mem_cons_self _ _) p hp
      · exact ih (fun e' he' => hm e' (List.mem_cons_of_mem _ he')) e he2 p hp

theorem pairsSat_foldDocs (S : String → Prop) (docs : List FileDoc) (id : String)
    (m : List (String × List (String × Int))) (hm : pairsSat S m) (hid : S id) :
    pairsSat S (docs.foldl (fun m doc => updAssoc m doc.s3_url (id, doc.job_end_time)) m) := by
  induction docs generalizing m with
  | nil => exact hm
  | cons d ds ih =>
    exact ih _ (pairsSat_updAssoc S m d.s3_url (id, d.job_end_time) hm hid)

theorem pairsSat_classify (S : String → Prop) (records : List (String × List FileDoc))
    (init : List String × List (String × List (String × Int)))
    (h0 : pairsSat S init.2) (hrec : ∀ r ∈ records, r.2 ≠ [] → S r.1) :
    pairsSat S (records.foldl classifyStep init).2 := by
  induction records generalizing init with
  | nil => exact h0
  | cons r rs ih =>
    rw [List.foldl_cons]
    apply ih
    · by_cases h : r.2.length = 0
      · simpa [classifyStep, h] using h0
      · have hr : S r.1 := hrec r (List.mem_cons_self _ _) (by
          intro hnil
          exact h (by rw [hnil]; rfl))
        simpa [classifyStep, h] using pairsSat_foldDocs S r.2 r.1 init.2 h0 hr
    · exact fun r' hr' hne => hrec r' (List.mem_cons_of_mem _ hr') hne

theorem src_id_map_sat (records : List (String × List FileDoc)) :
    pairsSat (hasNonemptyRecord records) (src_id_map records) :=
  pairsSat_classify _ records ([], [])
    (fun e he => absurd he (List.not_mem_nil e))
    (fun r hr hne => ⟨r, hr, rfl, hne⟩)

theorem confirmed_mem (m : List (String × List (String × Int))) (j : String)
    (hj : j ∈ confirmedOfMap m) :
    ∃ e ∈ m, 1 < e.2.length ∧ ∃ p ∈ e.2, p.1 = j := by
  rw [confirmedOfMap, List.mem_flatMap] at hj
  obtain ⟨e, he, hje⟩ := hj
  have hef := List.mem_filter.mp he
  refine ⟨e, hef.1, by simpa using hef.2, ?_⟩
  rw [entryDropLatest] at hje
  obtain ⟨p, hp, rfl⟩ := List.mem_map.mp hje
  have hp2 : p ∈ sortDescByTime e.2 := List.mem_of_mem_drop hp
  exact ⟨p, (List.perm_insertionSort laterFirst e.2).mem_iff.mp hp2, rfl⟩

theorem unconfirmed_mem (records : List (String × List FileDoc)) (j : String)
    (hj : j ∈ unconfirmed_duplicates records) :
    ∃ r ∈ records, r.1 = j ∧ r.2 = [] := by
  rw [unconfirmed_duplicates, classifyRecords, classify_fst] at hj
  simp only [List.nil_append] at hj
  obtain ⟨r, hrf, hrj⟩ := List.mem_map.mp hj
  have hr := List.mem_filter.mp hrf
  refine ⟨r, hr.1, hrj, ?_⟩
  have : r.2.length = 0 := by simpa using hr.2
  exact List.length_eq_zero.mp this

/-- C6 (confirmed): for every classifier input whose job ids are
pairwise distinct (the code fetches each element of a Python set
exactly once), the unconfirmed list contains only ids whose fetch
returned zero file records, the confirmed list contains only ids
appearing in a `src_id_map` entry with at least two pairs, and the two
lists are disjoint. -/
theorem c6_classifier_disjoint (records : List (String × List FileDoc))
    (h : (records.map Prod.fst).Nodup) :
    (∀ j ∈ unconfirmed_duplicates records, ∃ r ∈ records, r.1 = j ∧ r.2 = []) ∧
    (∀ j ∈ confirmed_duplicates records,
        ∃ e ∈ src_id_map records, 1 < e.2.length ∧ ∃ p ∈ e.2, p.1 = j) ∧
    ∀ j ∈ confirmed_duplicates records, j ∉ unconfirmed_duplicates records := by
  refine ⟨fun j hj => unconfirmed_mem records j hj,
          fun j hj => confirmed_mem _ j hj, ?_⟩
  intro j hjc hju
  obtain ⟨r, hr, hr1, hr2⟩ := unconfirmed_mem records j hju
  obtain ⟨e, he, _, p, hp, hp1⟩ := confirmed_mem _ j hjc
  obtain ⟨r', hr', hr'1, hr'2⟩ := src_id_map_sat records e he p hp
  have hrr : r = r' := by
    have hinj := List.inj_on_of_nodup_map h
    exact hinj hr hr' (by rw [hr1, hr'1, hp1])
  rw [hrr] at hr2
  exact hr'2 hr2

/-- C6 witness: the theorem evaluated on a concrete input with a
confirmed duplicate ("B"), a unique job ("A") and a record-less job
("C"): the confirmed id "B" is not in the unconfirmed list. -/
theorem c6_witness :
    "B" ∉ unconfirmed_duplicates [("A", [⟨"f1", 2⟩]), ("B", [⟨"f1", 1⟩]), ("C", [])] :=
  (c6_classifier_disjoint [("A", [⟨"f1", 2⟩]), ("B", [⟨"f1", 1⟩]), ("C", [])]
    (by decide)).2.2 "B" (by decide)

theorem fetchResult_eq (outcomes : Nat → ScanAttempt) :
    fetchResult outcomes =
      match outcomes 0, outcomes 1, outcomes 2 with
      | .ok ds, _, _ => (ds, [], 1)
      | .err _, .ok ds, _ => (ds, [3 / 2], 2)
      | .err _, .err _, .ok ds => (ds, [3 / 2, 3], 3)
      | .err _, .err _, .err ds => (ds, [3 / 2, 3, 6], 3) := by
  rcases h0 : outcomes 0 with ds0 | ds0 <;> rcases h1 : outcomes 1 with ds1 | ds1 <;>
    rcases h2 : outcomes 2 with ds2 | ds2 <;>
      (simp [fetchResult, fetchGo, h0, h1, h2]; try norm_num)

/-- C7 (corrected): the fetcher makes at most 3 attempts; the first
successful attempt among the three determines the whole result (its
complete document list, never merged with partial records of earlier
failed attempts), with delays 1.5, 3, 6 slept after the failed attempts
that preceded it; but when all 3 attempts fail the fetcher returns the
records accumulated by the LAST failed attempt before it raised — the
empty list only when that attempt failed before yielding any record. -/
theorem c7_amended (outcomes : Nat → ScanAttempt) :
    (fetchResult outcomes).2.2 ≤ 3 ∧
    (scanOk (outcomes 0) = true →
        fetchResult outcomes = (scanDocs (outcomes 0), [], 1)) ∧
    (scanOk (outcomes 0) = false → scanOk (outcomes 1) = true →
        fetchResult outcomes = (scanDocs (outcomes 1), [3 / 2], 2)) ∧
    (scanOk (outcomes 0) = false → scanOk (outcomes 1) = false →
        scanOk (outcomes 2) = true →
        fetchResult outcomes = (scanDocs (outcomes 2), [3 / 2, 3], 3)) ∧
    (scanOk (outcomes 0) = false → scanOk (outcomes 1) = false →
        scanOk (outcomes 2) = false →
        fetchResult outcomes = (scanDocs (outcomes 2), [3 / 2, 3, 6], 3)) := by
  rcases h0 : outcomes 0 with ds0 | ds0 <;> rcases h1 : outcomes 1 with ds1 | ds1 <;>
    rcases h2 : outcomes 2 with ds2 | ds2 <;>
      refine ⟨?_, ?_, ?_, ?_, ?_⟩ <;>
        simp_all [fetchResult_eq, scanOk, scanDocs]

/-- C7 counterexample: when every attempt fails after having scanned
one document, the fetcher returns that document with its key — not the
empty record list the claim asserts for the all-attempts-fail case. -/
theorem c7_counterexample :
    get_es_docs_for_id "X" (fun _ => ScanAttempt.err [⟨"f", 0⟩]) = ("X", [⟨"f", 0⟩]) ∧
    ([⟨"f", 0⟩] : List FileDoc) ≠ [] := by
  constructor
  · rw [get_es_docs_for_id, fetchResult_eq]
  · decide

/-- C7 witness: the amended theorem applied to the oracle whose three
attempts all fail with nothing scanned: the result is empty, the three
delays 1.5, 3, 6 were slept, and 3 attempts were made. -/
theorem c7_witness :
    fetchResult (fun _ => ScanAttempt.err []) = ([], [3 / 2, 3, 6], 3) := by
  have h := (c7_amended (fun _ => ScanAttempt.err [])).2.2.2.2 rfl rfl rfl
  simpa using h

theorem assocGet_updAssoc {κ ν : Type} [DecidableEq κ]
    (m : List (κ × List ν)) (k k' : κ) (v : ν) :
    assocGet (updAssoc m k v) k'
      = if k = k' then assocGet m k' ++ [v] else assocGet m k' := by
  induction m with
  | nil => by_cases h : k = k' <;> simp [updAssoc, assocGet, h]
  | cons e rest ih =>
    obtain ⟨k0, vs⟩ := e
    by_cases h0 : k0 = k
    · subst h0
      by_cases h' : k0 = k'
      · subst h'
        simp [updAssoc, assocGet]
      · simp [updAssoc, assocGet, h']
    · by_cases h' : k0 = k'
      · subst h'
        have hkk : ¬k = k0 := fun he => h0 he.symm
        simp [updAssoc, assocGet, h0, hkk]
      · simp [updAssoc, assocGet, h0, h', ih]

theorem insitu_dict_go (pts : List InsituPoint)
    (m : List ((Int × Int × Int × Int) × List String)) (k : Int × Int × Int × Int) :
    assocGet (pts.foldl (fun m p => updAssoc m (pointKey p) p.job_id) m) k
      = assocGet m k
        ++ (pts.filter (fun p => decide (pointKey p = k))).map InsituPoint.job_id := by
  induction pts generalizing m with
  | nil => simp
  | cons p ps ih =>
    rw [List.foldl_cons, ih]
    by_cases h : pointKey p = k
    · simp [assocGet_updAssoc, h, List.filter_cons, List.append_assoc]
    · simp [assocGet_updAssoc, h, List.filter_cons]

theorem insitu_dict_get (pts : List InsituPoint) (k : Int × Int × Int × Int) :
    assocGet (insitu_dict pts) k
      = (pts.filter (fun p => decide (pointKey p = k))).map InsituPoint.job_id := by
  simpa [assocGet] using insitu_dict_go pts [] k

theorem mem_of_assocGet_ne {κ ν : Type} [DecidableEq κ] (m : List (κ × List ν)) (k : κ)
    (h : assocGet m k ≠ []) : (k, assocGet m k) ∈ m := by
  induction m with
  | nil => exact absurd rfl h
  | cons e rest ih =>
    obtain ⟨k0, vs⟩ := e
    by_cases h0 : k0 = k
    · subst h0
      simp [assocGet]
    · rw [assocGet, if_neg h0] at h ⊢
      exact List.mem_cons_of_mem _ (ih h)

theorem keys_updAssoc {κ ν : Type} [DecidableEq κ] (m : List (κ × List ν)) (k : κ) (v : ν) :
    (updAssoc m k v).map Prod.fst
      = if k ∈ m.map Prod.fst then m.map Prod.fst else m.map Prod.fst ++ [k] := by
  induction m with
  | nil => simp [updAssoc]
  | cons e rest ih =>
    obtain ⟨k0, vs⟩ := e
    by_cases h0 : k0 = k
    · subst h0
      simp [updAssoc]
    · have hk0 : ¬k = k0 := fun he => h0 he.symm
      by_cases hk : k ∈ rest.map Prod.fst
      · simp [updAssoc, h0, ih, hk, hk0]
      · simp [updAssoc, h0, ih, hk, hk0]

theorem keys_nodup_updAssoc {κ ν : Type} [DecidableEq κ] (m : List (κ × List ν))
    (k : κ) (v : ν) (h : (m.map Prod.fst).Nodup) :
    ((updAssoc m k v).map Prod.fst).Nodup := by
  rw [keys_updAssoc]
  by_cases hk : k ∈ m.map Prod.fst
  · simpa [hk] using h
  · rw [if_neg hk]
    rw [List.nodup_append]
    exact ⟨h, List.nodup_singleton k, fun a ha hak => hk ((List.mem_singleton.mp hak) ▸ ha)⟩

theorem insitu_dict_keys_nodup (pts : List InsituPoint) :
    ((insitu_dict pts).map Prod.fst).Nodup := by
  have main : ∀ (ps : List InsituPoint) (m : List ((Int × Int × Int × Int) × List String)),
      (m.map Prod.fst).Nodup →
      (((ps.foldl (fun m p => updAssoc m (pointKey p) p.job_id) m)).map Prod.fst).Nodup := by
    intro ps
    induction ps with
    | nil => exact fun m hm => hm
    | cons p ps ih =>
      intro m hm
      rw [List.foldl_cons]
      exact ih _ (keys_nodup_updAssoc m (pointKey p) p.job_id hm)
  exact main pts [] (by simp)

theorem assocGet_of_mem {κ ν : Type} [DecidableEq κ] (m : List (κ × List ν))
    (e : κ × List ν) (hnd : (m.map Prod.fst).Nodup) (he : e ∈ m) :
    assocGet m e.1 = e.2 := by
  induction m with
  | nil => cases he
  | cons e0 rest ih =>
    obtain ⟨k0, vs⟩ := e0
    have hnd2 : (k0 :: rest.map Prod.fst).Nodup := by simpa using hnd
    have hnd' := List.nodup_cons.mp hnd2
    rcases List.mem_cons.mp he with rfl | he'
    · simp [assocGet]
    · have hk0 : k0 ≠ e.1 := by
        intro hhh
        exact hnd'.1 (hhh ▸ List.mem_map_of_mem Prod.fst he')
      rw [assocGet, if_neg hk0]
      exact ih hnd'.2 he'

theorem hasDuplicatePoints_iff (pts : List InsituPoint) :
    hasDuplicatePoints pts = true ↔
      ∃ p q, List.Sublist [p, q] pts ∧ pointKey p = pointKey q := by
  rw [hasDuplicatePoints, List.any_eq_true]
  constructor
  · rintro ⟨e, he, hlen⟩
    have hlen' : 1 < e.2.length := of_decide_eq_true hlen
    have hget : assocGet (insitu_dict pts) e.1 = e.2 :=
      assocGet_of_mem _ e (insitu_dict_keys_nodup pts) he
    rw [insitu_dict_get] at hget
    have hflen : 1 < (pts.filter (fun p => decide (pointKey p = e.1))).length := by
      have := congrArg List.length hget
      rw [List.length_map] at this
      rw [this]
      exact hlen'
    obtain ⟨p, q, t, hpq⟩ :
        ∃ p q t, pts.filter (fun p => decide (pointKey p = e.1)) = p :: q :: t := by
      cases hf : pts.filter (fun p => decide (pointKey p = e.1)) with
      | nil => rw [hf] at hflen; simp at hflen
      | cons p rest =>
        cases rest with
        | nil => rw [hf] at hflen; simp at hflen
        | cons q t => exact ⟨p, q, t, rfl⟩
    have hsub : List.Sublist [p, q] pts := by
      have h1 : List.Sublist [p, q] (p :: q :: t) :=
        List.Sublist.cons₂ p (List.Sublist.cons₂ q (List.nil_sublist t))
      have h2 : List.Sublist (p :: q :: t) pts := hpq ▸ List.filter_sublist pts
      exact h1.trans h2
    have hp : pointKey p = e.1 := by
      have hmem : p ∈ pts.filter (fun p => decide (pointKey p = e.1)) := by
        rw [hpq]; exact List.mem_cons_self _ _
      simpa using (List.mem_filter.mp hmem).2
    have hq : pointKey q = e.1 := by
      have hmem : q ∈ pts.filter (fun p => decide (pointKey p = e.1)) := by
        rw [hpq]; exact List.mem_cons_of_mem _ (List.mem_cons_self _ _)
      simpa using (List.mem_filter.mp hmem).2
    exact ⟨p, q, hsub, hp.trans hq.symm⟩
  · rintro ⟨p, q, hsub, hkey⟩
    have hfil : [p, q].filter (fun r => decide (pointKey r = pointKey p)) = [p, q] := by
      simp [List.filter, hkey.symm]
    have hfsub : List.Sublist [p, q] (pts.filter (fun r => decide (pointKey r = pointKey p))) := by
      have := hsub.filter (fun r => decide (pointKey r = pointKey p))
      rwa [hfil] at this
    have hflen : 1 < (pts.filter (fun r => decide (pointKey r = pointKey p))).length := by
      have := hfsub.length_le
      simp at this
      omega
    have hne : assocGet (insitu_dict pts) (pointKey p) ≠ [] := by
      rw [insitu_dict_get]
      intro hnil
      have := congrArg List.length hnil
      rw [List.length_map, List.length_nil] at this
      omega
    refine ⟨(pointKey p, assocGet (insitu_dict pts) (pointKey p)),
      mem_of_assocGet_ne _ _ hne, ?_⟩
    rw [decide_eq_true_eq]
    show 1 < (assocGet (insitu_dict pts) (pointKey p)).length
    rw [insitu_dict_get, List.length_map]
    exact hflen

/-- C1 (corrected): for every unconfirmed job with a retained stats
record whose paginated query succeeds, the job is marked confirmed if
and only if at least two of the returned points (at distinct positions)
share an identical (time, latitude, longitude, depth) tuple — whether
or not their job ids are distinct; otherwise it is marked
missingEvidence.  In particular a group of two points attributed to the
SAME job id does confirm the job. -/
theorem c1_amended (stats : String → Option StatsDoc)
    (responder : QueryParams → List InsituPoint) (uuid : String) (s : StatsDoc)
    (h : stats uuid = some s) :
    ((checkUuid stats responder uuid).1 = FallbackOutcome.confirmed ↔
      ∃ p q, List.Sublist [p, q] (responder (paramsOf s)) ∧ pointKey p = pointKey q) ∧
    ((checkUuid stats responder uuid).1 = FallbackOutcome.missingEvidence ↔
      ¬∃ p q, List.Sublist [p, q] (responder (paramsOf s)) ∧ pointKey p = pointKey q) := by
  have hiff := hasDuplicatePoints_iff (responder (paramsOf s))
  simp only [checkUuid, h]
  by_cases hd : hasDuplicatePoints (responder (paramsOf s)) = true
  · rw [if_pos hd]
    refine ⟨⟨fun _ => hiff.mp hd, fun _ => rfl⟩,
      ⟨fun hcon => absurd hcon (by simp), fun hno => absurd (hiff.mp hd) hno⟩⟩
  · rw [if_neg hd]
    refine ⟨⟨fun hcon => absurd hcon (by simp), fun hex => absurd (hiff.mpr hex) hd⟩,
      ⟨fun _ hex => hd (hiff.mpr hex), fun _ => rfl⟩⟩

/-- C1 counterexample: the external service returns two identical
points both attributed to the SAME job id "J"; the code nevertheless
marks the job confirmed, refuting the claim that confirmation requires
a group with more than one distinct job id and that a group of two
points attributed to the same job id must not confirm the job. -/
theorem c1_counterexample :
    (checkUuid (fun _ => some sampleStats) (fun _ => [samplePoint, samplePoint]) "u").1
      = FallbackOutcome.confirmed ∧
    ([samplePoint, samplePoint]).map InsituPoint.job_id = ["J", "J"] := by
  decide

/-- C1 witness: the amended theorem applied to a service returning two
points sharing one (time, lat, lon, depth) key with distinct job ids
(the spec's scenario D): the job is confirmed. -/
theorem c1_witness :
    (checkUuid (fun _ => some sampleStats) (fun _ => [samplePoint, samplePoint2]) "u").1
      = FallbackOutcome.confirmed :=
  (c1_amended (fun _ => some sampleStats) (fun _ => [samplePoint, samplePoint2])
      "u" sampleStats rfl).1.mpr
    ⟨samplePoint, samplePoint2, List.Sublist.refl _, rfl⟩

/-- C8 (corrected): an unconfirmed job whose retained stats record is
absent is classified as SUSPECTED — the `KeyError` of the stats lookup
is caught by the bare `except`, which appends to
`suspected_duplicates` — and no external query is attempted (the error
strikes before the query parameters are built). -/
theorem c8_amended (stats : String → Option StatsDoc)
    (responder : QueryParams → List InsituPoint) (uuid : String)
    (h : stats uuid = none) :
    checkUuid stats responder uuid = (FallbackOutcome.suspected, []) := by
  simp only [checkUuid, h]

/-- C8 counterexample: for a uuid with no retained stats record the
fallback produces `suspected` (with no query issued), not the
`missingEvidence` classification the claim asserts. -/
theorem c8_counterexample :
    checkUuid (fun _ => none) (fun _ => []) "u" = (FallbackOutcome.suspected, []) ∧
    FallbackOutcome.suspected ≠ FallbackOutcome.missingEvidence := by
  decide

/-- C8 witness: the amended theorem applied at a concrete absent-stats
input. -/
theorem c8_witness :
    checkUuid (fun _ => none) (fun _ => []) "v" = (FallbackOutcome.suspected, []) :=
  c8_amended (fun _ => none) (fun _ => []) "v" rfl

theorem fallback_fold_length (stats : String → Option StatsDoc)
    (responder : QueryParams → List InsituPoint) (us : List String)
    (acc : List String × List String × List String) :
    (us.foldl (fallbackStep stats responder) acc).1.length
        + (us.foldl (fallbackStep stats responder) acc).2.1.length
        + (us.foldl (fallbackStep stats responder) acc).2.2.length
      = acc.1.length + acc.2.1.length + acc.2.2.length + us.length := by
  induction us generalizing acc with
  | nil => simp
  | cons u us ih =>
    rw [List.foldl_cons, ih]
    cases h : (checkUuid stats responder u).1 <;>
      (simp [fallbackStep, h]; omega)

/-- C9 (corrected): a run that reaches the end of classification writes
the output document with the three fields exactly once IF at least one
of the classifier's confirmed/unconfirmed lists is nonempty; when both
are empty NO output is written (the claim's "including runs in which
both sets are empty" fails).  When a document is written, every
unconfirmed job lands in exactly one of its three arrays on top of the
classifier's confirmed list. -/
theorem c9_amended (stats : String → Option StatsDoc)
    (responder : QueryParams → List InsituPoint)
    (unconfirmed confirmed : List String) :
    (runReport stats responder unconfirmed confirmed = none ↔
      unconfirmed = [] ∧ confirmed = []) ∧
    ∀ doc, runReport stats responder unconfirmed confirmed = some doc →
      doc.confirmed_duplicates.length + doc.suspected_duplicates.length
          + doc.missing_ingest_records.length
        = confirmed.length + unconfirmed.length := by
  constructor
  · rw [runReport]
    by_cases h : unconfirmed.length = 0 ∧ confirmed.length = 0
    · simp only [if_pos h]
      simp [List.length_eq_zero.mp h.1, List.length_eq_zero.mp h.2]
    · simp only [if_neg h]
      constructor
      · intro hcon; exact absurd hcon (by simp)
      · intro hcon
        exact absurd ⟨by rw [hcon.1]; rfl, by rw [hcon.2]; rfl⟩ h
  · intro doc hdoc
    rw [runReport] at hdoc
    by_cases h : unconfirmed.length = 0 ∧ confirmed.length = 0
    · rw [if_pos h] at hdoc
      exact absurd hdoc (by simp)
    · rw [if_neg h] at hdoc
      have hd : doc = runFallback stats responder unconfirmed confirmed :=
        (Option.some.injEq _ _ ▸ hdoc).symm
      subst hd
      have hlen := fallback_fold_length stats responder unconfirmed (confirmed, [], [])
      simp only [runFallback]
      simp at hlen
      omega

/-- C9 counterexample: a run whose classifier found nothing (both lists
empty) reaches the end of classification but writes NO output document,
refuting the claim that the output is written on every run including
runs with both sets empty. -/
theorem c9_counterexample :
    runReport (fun _ => none) (fun _ => []) [] [] = none := by
  rfl

/-- C9 witness: the amended theorem applied to a concrete run with one
unconfirmed job and no stats record for it: the single written document
holds that job in its suspected array. -/
theorem c9_witness :
    (⟨[], ["u"], []⟩ : OutputDoc).confirmed_duplicates.length
        + (⟨[], ["u"], []⟩ : OutputDoc).suspected_duplicates.length
        + (⟨[], ["u"], []⟩ : OutputDoc).missing_ingest_records.length
      = ([] : List String).length + (["u"] : List String).length :=
  (c9_amended (fun _ => none) (fun _ => []) ["u"] []).2 ⟨[], ["u"], []⟩ (by decide)

/-- C4 (code bug): against a service that answers every page request
with status 500, the loop guard `retries > 0 and status != 200` holds
after every iteration — `retries` is never decremented, so it stays 2,
the delay grows as 2^n, and the loop never terminates; the failure is
never turned into the `suspected` reclassification the claim (and the
spec) describe. -/
theorem c4_code_bug :
    ∀ n : Nat,
      ((pageRetryStep (fun _ => 500))^[n] (pageRetryInit (fun _ => 500))).retries = 2 ∧
      ((pageRetryStep (fun _ => 500))^[n] (pageRetryInit (fun _ => 500))).status = 500 ∧
      ((pageRetryStep (fun _ => 500))^[n] (pageRetryInit (fun _ => 500))).delay = 2 ^ n ∧
      pageRetryCond ((pageRetryStep (fun _ => 500))^[n] (pageRetryInit (fun _ => 500)))
        = true := by
  intro n
  induction n with
  | zero => simp [pageRetryInit, pageRetryCond]
  | succ n ih =>
    obtain ⟨h1, h2, h3, h4⟩ := ih
    rw [Function.iterate_succ_apply']
    refine ⟨?_, ?_, ?_, ?_⟩ <;>
      simp [pageRetryStep, pageRetryCond, h1, h2, h3, pow_succ]

theorem lookupStats_mapRetain (m : List (String × StatsDoc)) (k u : String) (v : StatsDoc) :
    lookupStats (mapRetain m k v) u = if k = u then some v else lookupStats m u := by
  induction m with
  | nil => by_cases h : k = u <;> simp [mapRetain, lookupStats, h]
  | cons e rest ih =>
    obtain ⟨k0, v0⟩ := e
    by_cases h0 : k0 = k
    · subst h0
      by_cases h : k0 = u
      · subst h
        simp [mapRetain, lookupStats]
      · simp [mapRetain, lookupStats, h]
    · by_cases h : k0 = u
      · subst h
        have hku : ¬k = k0 := fun he => h0 he.symm
        simp [mapRetain, lookupStats, h0, hku]
      · simp [mapRetain, lookupStats, h0, h, ih]

theorem mem_setInsert (l : List String) (x u : String) :
    u ∈ setInsert l x ↔ u ∈ l ∨ u = x := by
  by_cases h : x ∈ l
  · rw [setInsert, if_pos h]
    constructor
    · exact Or.inl
    · rintro (hu | rfl)
      exacts [hu, h]
  · rw [setInsert, if_neg h]
    simp [List.mem_append]

theorem enumInv_step (pref : String) (st : EnumState) (dc : StatsDoc × Bool)
    (h : enumInv st) : enumInv (enumStep pref st dc) := by
  unfold enumStep
  by_cases hpre : startsWithStr dc.1.s3_url pref = true
  · rw [if_pos hpre]
    by_cases hco : ((lookupStats st.uuid_to_stats (s3_url_to_uuid_str dc.1.s3_url)).isNone
        || dc.2) = true
    · rw [if_pos hco]
      intro u hu
      show (lookupStats (mapRetain st.uuid_to_stats (s3_url_to_uuid_str dc.1.s3_url) dc.1) u).isSome
        = true
      rw [lookupStats_mapRetain]
      by_cases he : s3_url_to_uuid_str dc.1.s3_url = u
      · rw [if_pos he]; rfl
      · rw [if_neg he]
        rcases (mem_setInsert _ _ _).mp hu with hul | hue
        · exact h u hul
        · exact absurd hue.symm he
    · rw [if_neg hco]
      intro u hu
      rcases (mem_setInsert _ _ _).mp hu with hul | hue
      · exact h u hul
      · subst hue
        cases ho : lookupStats st.uuid_to_stats (s3_url_to_uuid_str dc.1.s3_url) with
        | none =>
          exfalso
          apply hco
          rw [ho]
          rfl
        | some v => rfl
  · rw [if_neg hpre]
    exact h

theorem enumerateStats_inv (pref : String) (docs : List (StatsDoc × Bool)) :
    enumInv (enumerateStats pref docs) := by
  rw [enumerateStats]
  have main : ∀ (ds : List (StatsDoc × Bool)) (st : EnumState), enumInv st →
      enumInv (ds.foldl (enumStep pref) st) := by
    intro ds
    induction ds with
    | nil => exact fun st h => h
    | cons d ds ih =>
      intro st h
      rw [List.foldl_cons]
      exact ih _ (enumInv_step pref st d h)
  exact main docs ⟨0, 0, 0, [], []⟩ (fun u hu => absurd hu (List.not_mem_nil u))

/-- C10 (confirmed): source enumeration retains a stats record for
every job id it adds — the first record seen for an id is retained
unconditionally via the `uuid not in uuid_to_stats` disjunct, before
any probabilistic replacement — so every id that the mapper later
places in the unconfirmed list has a retained stats record, and the
absent-stats branch of the fallback (suspected with no query issued) is
unreachable for jobs produced by enumeration: the fallback takes the
query-issuing branch for them. -/
theorem c10_enumeration_retains_stats (pref : String) (docs : List (StatsDoc × Bool))
    (fetcher : String → List FileDoc) (responder : QueryParams → List InsituPoint) :
    ∀ u ∈ unconfirmed_duplicates
        ((enumerateStats pref docs).ingest_uuids.map (fun id => (id, fetcher id))),
      ∃ s, lookupStats (enumerateStats pref docs).uuid_to_stats u = some s ∧
        checkUuid (fun x => lookupStats (enumerateStats pref docs).uuid_to_stats x)
            responder u
          = (if hasDuplicatePoints (responder (paramsOf s)) then
              (FallbackOutcome.confirmed, [paramsOf s])
            else (FallbackOutcome.missingEvidence, [paramsOf s])) := by
  intro u hu
  obtain ⟨r, hr, hr1, _⟩ := unconfirmed_mem _ u hu
  obtain ⟨id, hid, hpair⟩ := List.mem_map.mp hr
  have hidu : id = u := by
    rw [← hpair] at hr1
    exact hr1
  subst hidu
  have hsome := enumerateStats_inv pref docs id hid
  cases ho : lookupStats (enumerateStats pref docs).uuid_to_stats id with
  | none =>
    rw [ho] at hsome
    exact absurd hsome (by simp)
  | some s =>
    refine ⟨s, rfl, ?_⟩
    simp only [checkUuid, ho]

/-- C10 witness: the theorem applied to a one-document scan whose job
"U" gets zero file records: "U" has a retained stats record. -/
theorem c10_witness :
    (lookupStats (enumerateStats "s3://b/" [(sampleEnumDoc, false)]).uuid_to_stats
      "U").isSome = true := by
  obtain ⟨s, hs, _⟩ := c10_enumeration_retains_stats "s3://b/" [(sampleEnumDoc, false)]
    (fun _ => []) (fun _ => []) "U" (by decide)
  rw [hs]
  rfl
